import Mathlib

/-!
Shallow embedding of `hierarc/Likelihood/hierarchy_likelihood.py`
(class `LensLikelihood`): the hierarchical-likelihood marginalization
engine.  Scalar hyperparameters, draws and distances are embedded as
rationals; log-likelihood values returned by the base likelihood kernel
are embedded as extended IEEE-style values (`FVal`: a real number,
plus infinity, minus infinity, or NaN), idealizing the float arithmetic
of `np.exp` / `np.log` over the reals (no rounding or overflow of
finite values).  Randomness is embedded by explicit state passing: a
random source carries a stream of standard-normal deviates and a stream
of outputs of the configured convergence-PDF sampler, each with a
cursor.  External collaborator methods inherited from classes outside
this file (`displace_prediction`, `log_likelihood`, `draw_anisotropy`,
`ani_scaling`) are abstract parameters gathered in a `Collab`
structure, so every theorem quantifies over all implementations of
those collaborators.
-/

/-- Extended IEEE-style value: a finite real, plus infinity, minus
infinity, or NaN. -/
inductive FVal where
  | f (x : ℝ)
  | pinf
  | ninf
  | nan

/-- Embedding of `np.isfinite`: true exactly on finite values (NaN and
the two infinities are not finite). -/
def FVal.isFinite : FVal → Prop
  | FVal.f _ => True
  | _ => False

/-- Embedding of the comparison `v > 0` under IEEE semantics: NaN
compares false, plus infinity is positive, minus infinity is not. -/
def FVal.pos : FVal → Prop
  | FVal.f x => 0 < x
  | FVal.pinf => True
  | _ => False

/-- Embedding of `np.exp` on extended values: `exp(-inf) = 0`,
`exp(+inf) = +inf`, `exp(nan) = nan`, and the real exponential on
finite values. -/
noncomputable def FVal.exp : FVal → FVal
  | FVal.f x => FVal.f (Real.exp x)
  | FVal.pinf => FVal.pinf
  | FVal.ninf => FVal.f 0
  | FVal.nan => FVal.nan

/-- The real number carried by a finite value (junk value 0 on
non-finite values; only ever used under an `isFinite` guard). -/
def FVal.toReal : FVal → ℝ
  | FVal.f x => x
  | _ => 0

/-- Random source: a stream of standard-normal deviates (consumed in
order by the `np.random.normal` calls) and a stream of outputs of the
configured convergence-PDF sampler (consumed in order by
`self._kappa_dist.draw_one`), with cursors. -/
structure Rng where
  normals : ℕ → ℚ
  kappas : ℕ → ℚ
  nIdx : ℕ
  kIdx : ℕ

/-- Consume the next standard-normal deviate. -/
def Rng.nextNormal (r : Rng) : ℚ × Rng :=
  (r.normals r.nIdx, Rng.mk r.normals r.kappas (r.nIdx + 1) r.kIdx)

/-- Consume the next convergence-PDF sampler output
(`self._kappa_dist.draw_one`). -/
def Rng.nextKappa (r : Rng) : ℚ × Rng :=
  (r.kappas r.kIdx, Rng.mk r.normals r.kappas r.nIdx (r.kIdx + 1))

/-- Embedding of `np.random.normal(loc, scale)`: `loc + scale * z`
where `z` is the next standard-normal deviate from the random source.
A scale of exactly zero returns the mean deterministically. -/
def normal (mu sigma z : ℚ) : ℚ := mu + sigma * z

/-- The keyword dictionary `kwargs_lens`.  Each field is optional; an
absent key falls back to the default value of the corresponding
parameter of `draw_lens` (or of `.get(key, 0)` in `check_dist`). -/
structure KwargsLens where
  lambda_mst : Option ℚ
  lambda_mst_sigma : Option ℚ
  kappa_ext : Option ℚ
  kappa_ext_sigma : Option ℚ
  gamma_ppn : Option ℚ
  lambda_ifu : Option ℚ
  lambda_ifu_sigma : Option ℚ

/-- The keyword dictionary `kwargs_kin`. -/
structure KwargsKin where
  a_ani : Option ℚ
  a_ani_sigma : Option ℚ
  beta_inf : Option ℚ
  beta_inf_sigma : Option ℚ
  sigma_v_sys_error : Option ℚ

/-- Modelled from the spec: `PDFSampling` (from
`hierarc.Util.distribution_util`, not under `src/`).  Per the spec it
is constructed from bin edges and a PDF array with the invariant
`len(bin_edges) == len(pdf) + 1`; a malformed configuration is a
construction-time fatal error (fail fast on instantiation). -/
structure PDFSampling where
  bin_edges : List ℚ
  pdf_array : List ℚ

/-- Modelled from the spec: construction of `PDFSampling` fails fast
(returns `none`) exactly when the length invariant
`len(bin_edges) == len(pdf) + 1` is violated. -/
def PDFSampling.create (bin_edges pdf_array : List ℚ) : Option PDFSampling :=
  if bin_edges.length = pdf_array.length + 1 then
    some (PDFSampling.mk bin_edges pdf_array)
  else
    none

/-- Immutable per-lens configuration set by `LensLikelihood.__init__`:
the Monte Carlo draw count `self._num_distribution_draws` (stored via
`int(...)`, never validated to be positive), the flags
`self._kappa_ext_bias` and `self._mst_ifu`, the derived flag
`self._draw_kappa`, and the convergence-PDF sampler
`self._kappa_dist` when one was constructed. -/
structure LensConfig where
  num_distribution_draws : ℤ
  kappa_ext_bias : Bool
  mst_ifu : Bool
  draw_kappa : Bool
  kappa_dist : Option PDFSampling

/-- Embedding of the `__init__` handling of `num_distribution_draws`,
`kappa_ext_bias`, `mst_ifu`, `kappa_pdf` and `kappa_bin_edges`: the
convergence-PDF sampler is constructed (and `_draw_kappa` set) only
when BOTH `kappa_pdf` and `kappa_bin_edges` are not `None`; otherwise
`_draw_kappa` is `False` and no sampler is created.  `none` as the
overall result models a constructor exception (only possible from a
malformed `PDFSampling` construction). -/
def lens_init (num_distribution_draws : ℤ) (kappa_ext_bias : Bool)
    (kappa_pdf : Option (List ℚ)) (kappa_bin_edges : Option (List ℚ))
    (mst_ifu : Bool) : Option LensConfig :=
  match kappa_pdf, kappa_bin_edges with
  | some pdf, some edges =>
    match PDFSampling.create edges pdf with
    | some dist =>
      some (LensConfig.mk num_distribution_draws kappa_ext_bias mst_ifu true (some dist))
    | none => none
  | some _pdf, none =>
    some (LensConfig.mk num_distribution_draws kappa_ext_bias mst_ifu false none)
  | none, some _edges =>
    some (LensConfig.mk num_distribution_draws kappa_ext_bias mst_ifu false none)
  | none, none =>
    some (LensConfig.mk num_distribution_draws kappa_ext_bias mst_ifu false none)

/-- Result of one `draw_lens` call:
`(lambda_mst_draw, kappa_ext_draw, gamma_ppn)`. -/
structure LensDraw where
  lambda_mst_draw : ℚ
  kappa_ext_draw : ℚ
  gamma_ppn : ℚ

/-- Embedding of `LensLikelihood.draw_lens(**kwargs_lens)`.  Parameter
defaults of the Python signature (`lambda_mst=1, lambda_mst_sigma=0,
kappa_ext=0, kappa_ext_sigma=0, gamma_ppn=1, lambda_ifu=1,
lambda_ifu_sigma=0`) apply to absent keys.  The lambda draw comes from
the IFU parameters when `self._mst_ifu` is true, else from the MST
parameters; the convergence draw comes from the PDF sampler when
`self._draw_kappa` is true, else from a normal draw when
`self._kappa_ext_bias` is true, else is 0; `gamma_ppn` passes through. -/
def draw_lens (cfg : LensConfig) (kl : KwargsLens) (r : Rng) : LensDraw × Rng :=
  let z1 := r.nextNormal
  let lambda_mst_draw :=
    if cfg.mst_ifu = true then
      normal (kl.lambda_ifu.getD 1) (kl.lambda_ifu_sigma.getD 0) z1.1
    else
      normal (kl.lambda_mst.getD 1) (kl.lambda_mst_sigma.getD 0) z1.1
  if cfg.draw_kappa = true then
    let kd := z1.2.nextKappa
    (LensDraw.mk lambda_mst_draw kd.1 (kl.gamma_ppn.getD 1), kd.2)
  else if cfg.kappa_ext_bias = true then
    let z2 := z1.2.nextNormal
    (LensDraw.mk lambda_mst_draw
      (normal (kl.kappa_ext.getD 0) (kl.kappa_ext_sigma.getD 0) z2.1)
      (kl.gamma_ppn.getD 1), z2.2)
  else
    (LensDraw.mk lambda_mst_draw 0 (kl.gamma_ppn.getD 1), z1.2)

/-- Embedding of `LensLikelihood.check_dist(kwargs_lens, kwargs_kin)`:
true iff the four spread parameters (absent keys defaulting to 0 via
`.get(key, 0)`) are all zero and `self._draw_kappa is False`. -/
def check_dist (cfg : LensConfig) (kl : KwargsLens) (kk : KwargsKin) : Bool :=
  let lambda_mst_sigma := kl.lambda_mst_sigma.getD 0
  let kappa_ext_sigma := kl.kappa_ext_sigma.getD 0
  let a_ani_sigma := kk.a_ani_sigma.getD 0
  let beta_inf_sigma := kk.beta_inf_sigma.getD 0
  if a_ani_sigma = 0 ∧ lambda_mst_sigma = 0 ∧ kappa_ext_sigma = 0 ∧ beta_inf_sigma = 0 then
    if cfg.draw_kappa = false then true else false
  else
    false

/-- A cosmological model, exposing the two angular-diameter-distance
functions the code calls (the `.value` unwrapping of the astropy
quantity is implicit). -/
structure Cosmo where
  angular_diameter_distance : ℚ → ℚ
  angular_diameter_distance_z1z2 : ℚ → ℚ → ℚ

/-- Embedding of `LensLikelihood.angular_diameter_distances(cosmo)`,
with `self._z_lens` and `self._z_source` passed explicitly. -/
def angular_diameter_distances (z_lens z_source : ℚ) (cosmo : Cosmo) : ℚ × ℚ :=
  let dd := cosmo.angular_diameter_distance z_lens
  let ds := cosmo.angular_diameter_distance z_source
  let dds := cosmo.angular_diameter_distance_z1z2 z_lens z_source
  let ddt := (1 + z_lens) * dd * ds / dds
  (ddt, dd)

/-- The external collaborator methods that `LensLikelihood` inherits
from classes defined outside this file (`TransformedCosmography`,
`LensLikelihoodBase`, `AnisotropyScalingIFU`), kept abstract so that
every theorem holds for all implementations: `displace_prediction(ddt,
dd, gamma_ppn, lambda_mst, kappa_ext)` is a pure function of its five
scalar inputs; `log_likelihood(ddt_, dd_, aniso_scaling,
sigma_v_sys_error)` is the base likelihood kernel; `draw_anisotropy`
consumes the kinematic keyword set and the random source;
`ani_scaling` is a deterministic lookup. -/
structure Collab where
  displace_prediction : ℚ → ℚ → ℚ → ℚ → ℚ → ℚ × ℚ
  log_likelihood : ℚ → ℚ → ℚ → Option ℚ → FVal
  draw_anisotropy : KwargsKin → Rng → ℚ × Rng
  ani_scaling : ℚ → ℚ

/-- Record of one iteration of the likelihood evaluation: the lens
hyperparameter draw, the anisotropy draw, and the arguments and result
of the base-kernel `log_likelihood` invocation. -/
structure IterTrace where
  lens_draw : LensDraw
  aniso_draw : ℚ
  kernel_ddt : ℚ
  kernel_dd : ℚ
  kernel_scaling : ℚ
  kernel_sigma_v : Option ℚ
  logl : FVal

/-- Result of a `hyper_param_likelihood` call: the returned
log-likelihood value, the kinematic keyword set as left behind by the
in-place `pop`, and the trace of kernel invocations (one entry per
invocation, in order). -/
structure EvalOut where
  result : FVal
  kin : KwargsKin
  trace : List IterTrace

open Classical in
/-- Embedding of the guarded accumulation
`if np.isfinite(exp_logl) and exp_logl > 0: likelihood += exp_logl`. -/
noncomputable def mcAccumulate (s : ℝ) (exp_logl : FVal) : ℝ :=
  if exp_logl.isFinite ∧ exp_logl.pos then s + exp_logl.toReal else s

/-- The contribution of one per-draw log-likelihood value to the Monte
Carlo running sum: the exponentiated value when it passes the
finite-and-strictly-positive guard, and zero otherwise. -/
noncomputable def mcContrib (logl : FVal) : ℝ := mcAccumulate 0 (FVal.exp logl)

/-- The Monte Carlo running sum determined by a trace: the sum of the
guarded contributions of the per-draw log-likelihood values. -/
noncomputable def mcSum (tr : List IterTrace) : ℝ :=
  (tr.map fun t => mcContrib t.logl).sum

/-- One iteration of the Monte Carlo loop body of
`hyper_param_likelihood`: draw the lens hyperparameters, draw the
anisotropy parameter, compute the anisotropy scaling, displace the
predicted distances, and evaluate the base kernel; returns the
iteration record and the advanced random source. -/
def iterStep (cfg : LensConfig) (C : Collab) (kl : KwargsLens) (kk : KwargsKin)
    (sv : Option ℚ) (ddt dd : ℚ) (r : Rng) : IterTrace × Rng :=
  let dl := draw_lens cfg kl r
  let ad := C.draw_anisotropy kk dl.2
  let aniso_scaling := C.ani_scaling ad.1
  let dp := C.displace_prediction ddt dd dl.1.gamma_ppn dl.1.lambda_mst_draw dl.1.kappa_ext_draw
  let logl := C.log_likelihood dp.1 dp.2 aniso_scaling sv
  (IterTrace.mk dl.1 ad.1 dp.1 dp.2 aniso_scaling sv logl, ad.2)

/-- Embedding of the Monte Carlo loop of `hyper_param_likelihood`
(`for i in range(N): ...`), threading the random source and the
running sum (`likelihood`) and recording the trace.  Each iteration
runs `iterStep` (the loop body up to the kernel evaluation),
exponentiates the per-draw log-likelihood, and accumulates it under
the finite-and-positive guard. -/
noncomputable def mcLoop (cfg : LensConfig) (C : Collab) (kl : KwargsLens)
    (kk : KwargsKin) (sv : Option ℚ) (ddt dd : ℚ) :
    ℕ → Rng → ℝ → ℝ × Rng × List IterTrace
  | 0, _r, s => (s, _r, [])
  | Nat.succ n, r, s =>
    let step := iterStep cfg C kl kk sv ddt dd r
    let s1 := mcAccumulate s (FVal.exp step.1.logl)
    let rest := mcLoop cfg C kl kk sv ddt dd n step.2 s1
    (rest.1, rest.2.1, step.1 :: rest.2.2)

/-- Embedding of the sharp-distribution branch of
`hyper_param_likelihood` (taken when `check_dist` is true): one lens
draw, one distance displacement, one anisotropy draw and scaling, one
base-kernel invocation, whose value is returned directly.  `kk` is the
kinematic keyword set after the pop and `sv` the popped value. -/
def sharpPath (cfg : LensConfig) (C : Collab) (r : Rng) (ddt dd : ℚ)
    (kl : KwargsLens) (kk : KwargsKin) (sv : Option ℚ) : EvalOut :=
  let dl := draw_lens cfg kl r
  let dp := C.displace_prediction ddt dd dl.1.gamma_ppn dl.1.lambda_mst_draw dl.1.kappa_ext_draw
  let ad := C.draw_anisotropy kk dl.2
  let aniso_scaling := C.ani_scaling ad.1
  let lnlog := C.log_likelihood dp.1 dp.2 aniso_scaling sv
  EvalOut.mk lnlog kk [IterTrace.mk dl.1 ad.1 dp.1 dp.2 aniso_scaling sv lnlog]

/-- Embedding of the Monte Carlo branch of `hyper_param_likelihood`:
run the loop `self._num_distribution_draws` times from a zero sum
(`range` of a non-positive count is empty), then return minus infinity
when the accumulated sum is non-positive and otherwise
`np.log(likelihood / self._num_distribution_draws)` — dividing by the
full configured draw count. -/
noncomputable def mcPath (cfg : LensConfig) (C : Collab) (r : Rng) (ddt dd : ℚ)
    (kl : KwargsLens) (kk : KwargsKin) (sv : Option ℚ) : EvalOut :=
  let out := mcLoop cfg C kl kk sv ddt dd cfg.num_distribution_draws.toNat r 0
  if out.1 ≤ 0 then
    EvalOut.mk FVal.ninf kk out.2.2
  else
    EvalOut.mk (FVal.f (Real.log (out.1 / (cfg.num_distribution_draws : ℝ)))) kk out.2.2

/-- Embedding of `LensLikelihood.hyper_param_likelihood(ddt, dd,
kwargs_lens, kwargs_kin)`: first `sigma_v_sys_error` is popped from
the kinematic keyword set in place (the popped set is what every later
use of `kwargs_kin` in the call sees, and what the caller is left
with), then `check_dist` selects the sharp branch or the Monte Carlo
branch. -/
noncomputable def hyper_param_likelihood (cfg : LensConfig) (C : Collab) (r : Rng)
    (ddt dd : ℚ) (kl : KwargsLens) (kk : KwargsKin) : EvalOut :=
  let sigma_v_sys_error := kk.sigma_v_sys_error
  let kk1 := { kk with sigma_v_sys_error := none }
  if check_dist cfg kl kk1 = true then
    sharpPath cfg C r ddt dd kl kk1 sigma_v_sys_error
  else
    mcPath cfg C r ddt dd kl kk1 sigma_v_sys_error

lemma mcAccumulate_fin (s x : ℝ) :
    mcAccumulate s (FVal.f x) = if 0 < x then s + x else s := by
  simp [mcAccumulate, FVal.isFinite, FVal.pos, FVal.toReal]

lemma mcAccumulate_pinf (s : ℝ) : mcAccumulate s FVal.pinf = s := by
  simp [mcAccumulate, FVal.isFinite]

lemma mcAccumulate_ninf (s : ℝ) : mcAccumulate s FVal.ninf = s := by
  simp [mcAccumulate, FVal.isFinite]

lemma mcAccumulate_nan (s : ℝ) : mcAccumulate s FVal.nan = s := by
  simp [mcAccumulate, FVal.isFinite]

lemma mcAccumulate_split (s : ℝ) (e : FVal) :
    mcAccumulate s e = s + mcAccumulate 0 e := by
  cases e <;> simp [mcAccumulate, FVal.isFinite, FVal.pos, FVal.toReal] <;> split <;> simp

lemma mcContrib_nonneg (v : FVal) : 0 ≤ mcContrib v := by
  cases v with
  | f x =>
    simp only [mcContrib, FVal.exp, mcAccumulate_fin]
    split
    · have h := Real.exp_pos x
      linarith
    · exact le_refl 0
  | pinf => simp [mcContrib, FVal.exp, mcAccumulate_pinf]
  | ninf => simp [mcContrib, FVal.exp, mcAccumulate_fin]
  | nan => simp [mcContrib, FVal.exp, mcAccumulate_nan]

lemma mcSum_nil : mcSum [] = 0 := rfl

lemma mcSum_cons (t : IterTrace) (tr : List IterTrace) :
    mcSum (t :: tr) = mcContrib t.logl + mcSum tr := by
  simp [mcSum]

lemma mcSum_nonneg (tr : List IterTrace) : 0 ≤ mcSum tr := by
  induction tr with
  | nil => simp [mcSum_nil]
  | cons t tr ih => rw [mcSum_cons]; exact add_nonneg (mcContrib_nonneg t.logl) ih

lemma check_dist_pop (cfg : LensConfig) (kl : KwargsLens) (kk : KwargsKin) :
    check_dist cfg kl { kk with sigma_v_sys_error := none } = check_dist cfg kl kk := rfl

lemma check_dist_iff (cfg : LensConfig) (kl : KwargsLens) (kk : KwargsKin) :
    check_dist cfg kl kk = true ↔
      kl.lambda_mst_sigma.getD 0 = 0 ∧ kl.kappa_ext_sigma.getD 0 = 0 ∧
        kk.a_ani_sigma.getD 0 = 0 ∧ kk.beta_inf_sigma.getD 0 = 0 ∧
        cfg.draw_kappa = false := by
  simp only [check_dist]
  split
  · split
    · simp_all
    · simp_all
  · simp_all

lemma draw_lens_lambda (cfg : LensConfig) (kl : KwargsLens) (r : Rng) :
    (draw_lens cfg kl r).1.lambda_mst_draw =
      if cfg.mst_ifu = true then
        normal (kl.lambda_ifu.getD 1) (kl.lambda_ifu_sigma.getD 0) (r.normals r.nIdx)
      else
        normal (kl.lambda_mst.getD 1) (kl.lambda_mst_sigma.getD 0) (r.normals r.nIdx) := by
  cases hm : cfg.mst_ifu <;> cases hd : cfg.draw_kappa <;> cases hb : cfg.kappa_ext_bias <;>
    simp [draw_lens, Rng.nextNormal, Rng.nextKappa, hm, hd, hb]

lemma draw_lens_kappa (cfg : LensConfig) (kl : KwargsLens) (r : Rng) :
    (draw_lens cfg kl r).1.kappa_ext_draw =
      if cfg.draw_kappa = true then r.kappas r.kIdx
      else if cfg.kappa_ext_bias = true then
        normal (kl.kappa_ext.getD 0) (kl.kappa_ext_sigma.getD 0) (r.normals (r.nIdx + 1))
      else 0 := by
  cases hm : cfg.mst_ifu <;> cases hd : cfg.draw_kappa <;> cases hb : cfg.kappa_ext_bias <;>
    simp [draw_lens, Rng.nextNormal, Rng.nextKappa, hm, hd, hb]

lemma draw_lens_ignores_kappa_args (cfg : LensConfig) (kl : KwargsLens) (r : Rng)
    (a b : Option ℚ) (h : cfg.draw_kappa = true) :
    draw_lens cfg { kl with kappa_ext := a, kappa_ext_sigma := b } r = draw_lens cfg kl r := by
  cases hm : cfg.mst_ifu <;> simp [draw_lens, h, hm]

lemma draw_lens_ignores_mst_args (cfg : LensConfig) (kl : KwargsLens) (r : Rng)
    (a b : Option ℚ) (h : cfg.mst_ifu = true) :
    draw_lens cfg { kl with lambda_mst := a, lambda_mst_sigma := b } r = draw_lens cfg kl r := by
  cases hd : cfg.draw_kappa <;> cases hb : cfg.kappa_ext_bias <;>
    simp [draw_lens, h, hd, hb]

lemma iterStep_sigma_v (cfg : LensConfig) (C : Collab) (kl : KwargsLens) (kk : KwargsKin)
    (sv : Option ℚ) (ddt dd : ℚ) (r : Rng) :
    (iterStep cfg C kl kk sv ddt dd r).1.kernel_sigma_v = sv := rfl

lemma iterStep_rng_sv_free (cfg : LensConfig) (C : Collab) (kl : KwargsLens) (kk : KwargsKin)
    (sv sv2 : Option ℚ) (ddt dd : ℚ) (r : Rng) :
    (iterStep cfg C kl kk sv ddt dd r).2 = (iterStep cfg C kl kk sv2 ddt dd r).2 := rfl

lemma iterStep_draws_sv_free (cfg : LensConfig) (C : Collab) (kl : KwargsLens) (kk : KwargsKin)
    (sv sv2 : Option ℚ) (ddt dd : ℚ) (r : Rng) :
    ((iterStep cfg C kl kk sv ddt dd r).1.lens_draw,
        (iterStep cfg C kl kk sv ddt dd r).1.aniso_draw) =
      ((iterStep cfg C kl kk sv2 ddt dd r).1.lens_draw,
        (iterStep cfg C kl kk sv2 ddt dd r).1.aniso_draw) := rfl

lemma mcLoop_zero (cfg : LensConfig) (C : Collab) (kl : KwargsLens) (kk : KwargsKin)
    (sv : Option ℚ) (ddt dd : ℚ) (r : Rng) (s : ℝ) :
    mcLoop cfg C kl kk sv ddt dd 0 r s = (s, r, []) := rfl

lemma mcLoop_succ (cfg : LensConfig) (C : Collab) (kl : KwargsLens) (kk : KwargsKin)
    (sv : Option ℚ) (ddt dd : ℚ) (n : ℕ) (r : Rng) (s : ℝ) :
    mcLoop cfg C kl kk sv ddt dd (n + 1) r s =
      ((mcLoop cfg C kl kk sv ddt dd n (iterStep cfg C kl kk sv ddt dd r).2
          (mcAccumulate s (FVal.exp (iterStep cfg C kl kk sv ddt dd r).1.logl))).1,
        (mcLoop cfg C kl kk sv ddt dd n (iterStep cfg C kl kk sv ddt dd r).2
          (mcAccumulate s (FVal.exp (iterStep cfg C kl kk sv ddt dd r).1.logl))).2.1,
        (iterStep cfg C kl kk sv ddt dd r).1 ::
          (mcLoop cfg C kl kk sv ddt dd n (iterStep cfg C kl kk sv ddt dd r).2
            (mcAccumulate s (FVal.exp (iterStep cfg C kl kk sv ddt dd r).1.logl))).2.2) := rfl

lemma mcLoop_sum_trace (cfg : LensConfig) (C : Collab) (kl : KwargsLens) (kk : KwargsKin)
    (sv : Option ℚ) (ddt dd : ℚ) :
    ∀ (n : ℕ) (r : Rng) (s : ℝ),
      (mcLoop cfg C kl kk sv ddt dd n r s).1 =
          s + mcSum (mcLoop cfg C kl kk sv ddt dd n r s).2.2 ∧
        (mcLoop cfg C kl kk sv ddt dd n r s).2.2.length = n := by
  intro n
  induction n with
  | zero => intro r s; simp [mcLoop_zero, mcSum_nil]
  | succ n ih =>
    intro r s
    rw [mcLoop_succ]
    refine ⟨?_, ?_⟩
    · rw [(ih _ _).1, mcSum_cons, mcAccumulate_split, mcContrib]
      ring
    · simp [(ih _ _).2]

lemma mcLoop_trace_sv (cfg : LensConfig) (C : Collab) (kl : KwargsLens) (kk : KwargsKin)
    (sv : Option ℚ) (ddt dd : ℚ) :
    ∀ (n : ℕ) (r : Rng) (s : ℝ) (t : IterTrace),
      t ∈ (mcLoop cfg C kl kk sv ddt dd n r s).2.2 → t.kernel_sigma_v = sv := by
  intro n
  induction n with
  | zero => intro r s t ht; simp [mcLoop_zero] at ht
  | succ n ih =>
    intro r s t ht
    rw [mcLoop_succ] at ht
    rcases List.mem_cons.mp ht with h | h
    · rw [h]; exact iterStep_sigma_v cfg C kl kk sv ddt dd r
    · exact ih _ _ t h

lemma mcLoop_trace_draws (cfg : LensConfig) (C : Collab) (kl : KwargsLens) (kk : KwargsKin)
    (sv sv2 : Option ℚ) (ddt dd : ℚ) :
    ∀ (n : ℕ) (r : Rng) (s s2 : ℝ),
      ((mcLoop cfg C kl kk sv ddt dd n r s).2.2.map
          fun t => (t.lens_draw, t.aniso_draw)) =
        ((mcLoop cfg C kl kk sv2 ddt dd n r s2).2.2.map
          fun t => (t.lens_draw, t.aniso_draw)) := by
  intro n
  induction n with
  | zero => intro r s s2; simp [mcLoop_zero]
  | succ n ih =>
    intro r s s2
    rw [mcLoop_succ, mcLoop_succ]
    simp only [List.map_cons]
    rw [iterStep_rng_sv_free cfg C kl kk sv sv2 ddt dd r]
    exact congrArg₂ List.cons (iterStep_draws_sv_free cfg C kl kk sv sv2 ddt dd r) (ih _ _ _)

/-- Concrete random source used by witnesses: standard-normal stream
constantly 2, convergence-PDF sampler stream constantly 7. -/
def rngW : Rng := Rng.mk (fun _ => 2) (fun _ => 7) 0 0

/-- Empty `kwargs_lens` (no keys supplied). -/
def klNone : KwargsLens := KwargsLens.mk none none none none none none none

/-- Empty `kwargs_kin` (no keys supplied). -/
def kkNone : KwargsKin := KwargsKin.mk none none none none none

/-- Witness configuration with a convergence PDF configured. -/
def cfgPDF : LensConfig :=
  LensConfig.mk 3 false false true (some (PDFSampling.mk [0, 1] [1]))

/-- Witness configuration with `mst_ifu = true` and no convergence PDF. -/
def cfgIFU : LensConfig := LensConfig.mk 3 false true false none

/-- Claim C2: `check_dist` (the sharp-distribution test) returns true
if and only if `lambda_mst_sigma`, `kappa_ext_sigma`, `a_ani_sigma`
and `beta_inf_sigma` are all exactly zero (absent keys counting as
zero) and no convergence PDF is configured on the lens; any one
nonzero sigma, or a configured convergence PDF, makes it return
false. -/
theorem claim_C2_sharp_distribution_test (cfg : LensConfig) (kl : KwargsLens) (kk : KwargsKin) :
    check_dist cfg kl kk = true ↔
      kl.lambda_mst_sigma.getD 0 = 0 ∧ kl.kappa_ext_sigma.getD 0 = 0 ∧
        kk.a_ani_sigma.getD 0 = 0 ∧ kk.beta_inf_sigma.getD 0 = 0 ∧
        cfg.draw_kappa = false :=
  check_dist_iff cfg kl kk

/-- Claim C7: `angular_diameter_distances` invokes the cosmological
model's angular-diameter-distance function at the lens redshift, at
the source redshift, and for the lens-source pair, and returns exactly
`ddt = (1 + z_lens) * D(z_lens) * D(z_source) / D(z_lens, z_source)`
and `dd = D(z_lens)`. -/
theorem claim_C7_angular_diameter_distances (z_lens z_source : ℚ) (cosmo : Cosmo) :
    angular_diameter_distances z_lens z_source cosmo =
      ((1 + z_lens) * cosmo.angular_diameter_distance z_lens *
          cosmo.angular_diameter_distance z_source /
          cosmo.angular_diameter_distance_z1z2 z_lens z_source,
        cosmo.angular_diameter_distance z_lens) := rfl

/-- Claim C5: in `draw_lens`, the external-convergence draw follows a
strict precedence: if a convergence PDF is configured, kappa is drawn
from that PDF sampler and the `kappa_ext` / `kappa_ext_sigma`
arguments are ignored entirely; otherwise if `kappa_ext_bias` is
enabled, kappa is drawn from a normal distribution with mean
`kappa_ext` and standard deviation `kappa_ext_sigma`; otherwise kappa
is deterministically 0. -/
theorem claim_C5_kappa_precedence (cfg : LensConfig) (kl : KwargsLens) (r : Rng) :
    ((draw_lens cfg kl r).1.kappa_ext_draw =
        if cfg.draw_kappa = true then r.kappas r.kIdx
        else if cfg.kappa_ext_bias = true then
          normal (kl.kappa_ext.getD 0) (kl.kappa_ext_sigma.getD 0) (r.normals (r.nIdx + 1))
        else 0) ∧
      (cfg.draw_kappa = true → ∀ a b : Option ℚ,
        draw_lens cfg { kl with kappa_ext := a, kappa_ext_sigma := b } r = draw_lens cfg kl r) :=
  ⟨draw_lens_kappa cfg kl r, fun h a b => draw_lens_ignores_kappa_args cfg kl r a b h⟩

/-- Witness for C5 at a concrete configured-PDF lens: the kappa draw
is the sampler output and the kappa arguments are ignored. -/
theorem claim_C5_kappa_precedence_witness :
    (draw_lens cfgPDF klNone rngW).1.kappa_ext_draw = 7 ∧
      draw_lens cfgPDF { klNone with kappa_ext := some 9, kappa_ext_sigma := some 2 } rngW =
        draw_lens cfgPDF klNone rngW := by
  have h := claim_C5_kappa_precedence cfgPDF klNone rngW
  refine ⟨?_, h.2 rfl (some 9) (some 2)⟩
  rw [h.1]
  rfl

/-- Claim C6: for a lens configured with `mst_ifu = true`, the lambda
draw in `draw_lens` comes from a normal distribution with mean
`lambda_ifu` and standard deviation `lambda_ifu_sigma`, and the output
of `draw_lens` is independent of the `lambda_mst` and
`lambda_mst_sigma` arguments: two calls differing only in `lambda_mst`
and `lambda_mst_sigma` (with the same random source state) produce
identical results. -/
theorem claim_C6_mst_ifu_independence (cfg : LensConfig) (kl : KwargsLens) (r : Rng)
    (h : cfg.mst_ifu = true) :
    ((draw_lens cfg kl r).1.lambda_mst_draw =
        normal (kl.lambda_ifu.getD 1) (kl.lambda_ifu_sigma.getD 0) (r.normals r.nIdx)) ∧
      ∀ a b : Option ℚ,
        draw_lens cfg { kl with lambda_mst := a, lambda_mst_sigma := b } r =
          draw_lens cfg kl r := by
  constructor
  · rw [draw_lens_lambda, if_pos h]
  · exact fun a b => draw_lens_ignores_mst_args cfg kl r a b h

/-- Witness for C6 at a concrete `mst_ifu` lens: the lambda draw
degenerates to the IFU mean and varying the MST arguments changes
nothing. -/
theorem claim_C6_mst_ifu_independence_witness :
    (draw_lens cfgIFU klNone rngW).1.lambda_mst_draw = 1 ∧
      draw_lens cfgIFU { klNone with lambda_mst := some 5, lambda_mst_sigma := some 3 } rngW =
        draw_lens cfgIFU klNone rngW := by
  have h := claim_C6_mst_ifu_independence cfgIFU klNone rngW rfl
  refine ⟨?_, h.2 (some 5) (some 3)⟩
  rw [h.1]
  norm_num [normal, klNone, rngW]

lemma mcPath_kin (cfg : LensConfig) (C : Collab) (r : Rng) (ddt dd : ℚ)
    (kl : KwargsLens) (kk : KwargsKin) (sv : Option ℚ) :
    (mcPath cfg C r ddt dd kl kk sv).kin = kk := by
  simp only [mcPath]
  split <;> rfl

lemma mcPath_trace (cfg : LensConfig) (C : Collab) (r : Rng) (ddt dd : ℚ)
    (kl : KwargsLens) (kk : KwargsKin) (sv : Option ℚ) :
    (mcPath cfg C r ddt dd kl kk sv).trace =
      (mcLoop cfg C kl kk sv ddt dd cfg.num_distribution_draws.toNat r 0).2.2 := by
  simp only [mcPath]
  split <;> rfl

lemma mcPath_result (cfg : LensConfig) (C : Collab) (r : Rng) (ddt dd : ℚ)
    (kl : KwargsLens) (kk : KwargsKin) (sv : Option ℚ) :
    (mcPath cfg C r ddt dd kl kk sv).result =
      if mcSum (mcPath cfg C r ddt dd kl kk sv).trace ≤ 0 then FVal.ninf
      else FVal.f (Real.log (mcSum (mcPath cfg C r ddt dd kl kk sv).trace /
        (cfg.num_distribution_draws : ℝ))) := by
  have h := (mcLoop_sum_trace cfg C kl kk sv ddt dd cfg.num_distribution_draws.toNat r 0).1
  rw [zero_add] at h
  rw [mcPath_trace]
  simp only [mcPath, h]
  split
  · rfl
  · rfl

lemma mcPath_trace_length (cfg : LensConfig) (C : Collab) (r : Rng) (ddt dd : ℚ)
    (kl : KwargsLens) (kk : KwargsKin) (sv : Option ℚ) :
    (mcPath cfg C r ddt dd kl kk sv).trace.length = cfg.num_distribution_draws.toNat := by
  rw [mcPath_trace]
  exact (mcLoop_sum_trace cfg C kl kk sv ddt dd cfg.num_distribution_draws.toNat r 0).2

lemma hyper_param_sharp (cfg : LensConfig) (C : Collab) (r : Rng) (ddt dd : ℚ)
    (kl : KwargsLens) (kk : KwargsKin) (h : check_dist cfg kl kk = true) :
    hyper_param_likelihood cfg C r ddt dd kl kk =
      sharpPath cfg C r ddt dd kl { kk with sigma_v_sys_error := none }
        kk.sigma_v_sys_error := by
  simp only [hyper_param_likelihood]
  rw [check_dist_pop, h]
  rfl

lemma hyper_param_mc (cfg : LensConfig) (C : Collab) (r : Rng) (ddt dd : ℚ)
    (kl : KwargsLens) (kk : KwargsKin) (h : check_dist cfg kl kk = false) :
    hyper_param_likelihood cfg C r ddt dd kl kk =
      mcPath cfg C r ddt dd kl { kk with sigma_v_sys_error := none }
        kk.sigma_v_sys_error := by
  simp only [hyper_param_likelihood]
  rw [check_dist_pop, h]
  rfl

lemma mcSum_pos_ne_nil (tr : List IterTrace) (h : 0 < mcSum tr) : tr ≠ [] := by
  intro hnil
  rw [hnil, mcSum_nil] at h
  exact lt_irrefl 0 h

/-- Claim C1: on the Monte Carlo path, `hyper_param_likelihood`
iterates exactly `N = num_distribution_draws` times (trace length
`N.toNat`); for each draw it exponentiates the per-draw
log-likelihood and adds it to the running sum only if the
exponentiated value is finite and strictly positive (the sum equals
`mcSum` of the trace, whose per-draw contribution is the exponentiated
value under that guard and zero otherwise), and when the final sum is
positive it returns `log(sum / N)`, dividing by the full configured
draw count `N` and not by any other positive count — in particular not
by the number of accepted draws when that differs from `N`. -/
theorem claim_C1_monte_carlo_average (cfg : LensConfig) (C : Collab) (r : Rng)
    (ddt dd : ℚ) (kl : KwargsLens) (kk : KwargsKin) (out : EvalOut)
    (hout : out = hyper_param_likelihood cfg C r ddt dd kl kk)
    (h : check_dist cfg kl kk = false) :
    out.trace.length = cfg.num_distribution_draws.toNat ∧
      (0 < mcSum out.trace →
        out.result =
          FVal.f (Real.log (mcSum out.trace / (cfg.num_distribution_draws : ℝ)))) ∧
      ∀ k : ℕ, 0 < mcSum out.trace → 0 < k → (k : ℤ) ≠ cfg.num_distribution_draws →
        out.result ≠ FVal.f (Real.log (mcSum out.trace / (k : ℝ))) := by
  subst hout
  rw [hyper_param_mc cfg C r ddt dd kl kk h]
  refine ⟨mcPath_trace_length cfg C r ddt dd kl _ _, ?_, ?_⟩
  · intro hs
    rw [mcPath_result, if_neg (not_le.mpr hs)]
  · intro k hs hk hkN heq
    have hlen := mcPath_trace_length cfg C r ddt dd kl
      { kk with sigma_v_sys_error := none } kk.sigma_v_sys_error
    have hne := mcSum_pos_ne_nil _ hs
    have hlenpos : 0 < (mcPath cfg C r ddt dd kl { kk with sigma_v_sys_error := none }
        kk.sigma_v_sys_error).trace.length := List.length_pos.mpr hne
    rw [hlen] at hlenpos
    have hN : 0 < cfg.num_distribution_draws := by
      by_contra hle
      push_neg at hle
      rw [Int.toNat_eq_zero.mpr hle] at hlenpos
      exact lt_irrefl 0 hlenpos
    have hNr : (0 : ℝ) < (cfg.num_distribution_draws : ℝ) := by exact_mod_cast hN
    have hkr : (0 : ℝ) < (k : ℝ) := by exact_mod_cast hk
    rw [mcPath_result, if_neg (not_le.mpr hs)] at heq
    have hlog : Real.log (mcSum (mcPath cfg C r ddt dd kl
          { kk with sigma_v_sys_error := none } kk.sigma_v_sys_error).trace /
            (cfg.num_distribution_draws : ℝ)) =
        Real.log (mcSum (mcPath cfg C r ddt dd kl
          { kk with sigma_v_sys_error := none } kk.sigma_v_sys_error).trace / (k : ℝ)) := by
      injection heq
    have hdiv := Real.log_injOn_pos (Set.mem_Ioi.mpr (div_pos hs hNr))
      (Set.mem_Ioi.mpr (div_pos hs hkr)) hlog
    have hmul := (div_eq_div_iff (ne_of_gt hNr) (ne_of_gt hkr)).mp hdiv
    have hcast : (k : ℝ) = ((cfg.num_distribution_draws : ℤ) : ℝ) :=
      mul_left_cancel₀ (ne_of_gt hs) hmul
    exact hkN (by exact_mod_cast hcast)

lemma mcContrib_eq_zero (v : FVal)
    (h : ¬((FVal.exp v).isFinite ∧ (FVal.exp v).pos)) : mcContrib v = 0 := by
  simp only [mcContrib, mcAccumulate]
  rw [if_neg h]

lemma mcSum_eq_zero (tr : List IterTrace) (h : ∀ t ∈ tr, mcContrib t.logl = 0) :
    mcSum tr = 0 := by
  induction tr with
  | nil => exact mcSum_nil
  | cons t tr ih =>
    rw [mcSum_cons, h t (List.mem_cons_self t tr), zero_add]
    exact ih fun u hu => h u (List.mem_cons_of_mem t hu)

lemma mcLoop_trace_logl_const (cfg : LensConfig) (C : Collab) (kl : KwargsLens)
    (kk : KwargsKin) (sv : Option ℚ) (ddt dd : ℚ) (v : FVal)
    (hC : ∀ a b c d, C.log_likelihood a b c d = v) :
    ∀ (n : ℕ) (r : Rng) (s : ℝ),
      ∀ t ∈ (mcLoop cfg C kl kk sv ddt dd n r s).2.2, t.logl = v := by
  intro n
  induction n with
  | zero => intro r s t ht; simp [mcLoop_zero] at ht
  | succ n ih =>
    intro r s t ht
    rw [mcLoop_succ] at ht
    rcases List.mem_cons.mp ht with hh | hh
    · rw [hh]
      exact hC _ _ _ _
    · exact ih _ _ t hh

lemma mcSum_const_elem (tr : List IterTrace) (v : FVal) (h : ∀ t ∈ tr, t.logl = v) :
    mcSum tr = tr.length * mcContrib v := by
  induction tr with
  | nil => simp [mcSum_nil]
  | cons t tr ih =>
    rw [mcSum_cons, h t (List.mem_cons_self t tr)]
    rw [ih fun u hu => h u (List.mem_cons_of_mem t hu)]
    simp
    ring

lemma mcContrib_f_zero : mcContrib (FVal.f 0) = 1 := by
  simp [mcContrib, FVal.exp, mcAccumulate_fin, Real.exp_zero]

/-- Claim C4: on the Monte Carlo path, `hyper_param_likelihood`
returns negative infinity if and only if the accumulated sum of
accepted exponentiated per-draw likelihoods is at most zero; in
particular, when the base likelihood kernel output is rejected by the
finite-and-strictly-positive guard (e.g. it is negative infinity,
whose exponential is zero) for every one of the draws, the result is
negative infinity, returned as a value of the total function rather
than an error. -/
theorem claim_C4_negative_infinity_iff (cfg : LensConfig) (C : Collab) (r : Rng)
    (ddt dd : ℚ) (kl : KwargsLens) (kk : KwargsKin) (out : EvalOut)
    (hout : out = hyper_param_likelihood cfg C r ddt dd kl kk)
    (h : check_dist cfg kl kk = false) :
    (out.result = FVal.ninf ↔ mcSum out.trace ≤ 0) ∧
      ((∀ t ∈ out.trace, ¬((FVal.exp t.logl).isFinite ∧ (FVal.exp t.logl).pos)) →
        out.result = FVal.ninf) := by
  subst hout
  rw [hyper_param_mc cfg C r ddt dd kl kk h]
  constructor
  · rw [mcPath_result]
    split
    · rename_i hc
      simp [hc]
    · rename_i hc
      exact ⟨fun hf => FVal.noConfusion hf, fun hle => absurd hle hc⟩
  · intro hall
    have hz : mcSum (mcPath cfg C r ddt dd kl { kk with sigma_v_sys_error := none }
        kk.sigma_v_sys_error).trace = 0 :=
      mcSum_eq_zero _ fun t ht => mcContrib_eq_zero t.logl (hall t ht)
    rw [mcPath_result, hz, if_pos (le_refl (0 : ℝ))]

/-- Claim C9: if the configured number of distribution draws is zero
or negative and the hyperparameter set is not sharp,
`hyper_param_likelihood` returns negative infinity for every input
(the Monte Carlo loop body never executes and the zero accumulated sum
triggers the `log(0)` branch); and the constructor accepts any integer
draw count without validation. -/
theorem claim_C9_nonpositive_draw_count (cfg : LensConfig) (C : Collab) (r : Rng)
    (ddt dd : ℚ) (kl : KwargsLens) (kk : KwargsKin)
    (h1 : cfg.num_distribution_draws ≤ 0)
    (h2 : check_dist cfg kl kk = false) :
    (hyper_param_likelihood cfg C r ddt dd kl kk).result = FVal.ninf ∧
      ∀ (n : ℤ) (kb mi : Bool),
        ∃ c, lens_init n kb none none mi = some c ∧ c.num_distribution_draws = n := by
  constructor
  · rw [hyper_param_mc cfg C r ddt dd kl kk h2]
    have htr : (mcPath cfg C r ddt dd kl { kk with sigma_v_sys_error := none }
        kk.sigma_v_sys_error).trace = [] := by
      rw [mcPath_trace, Int.toNat_eq_zero.mpr h1, mcLoop_zero]
    rw [mcPath_result, htr, mcSum_nil, if_pos (le_refl (0 : ℝ))]
  · intro n kb mi
    exact ⟨LensConfig.mk n kb mi false none, rfl, rfl⟩

/-- Kinematic keyword set with a nonzero `a_ani_sigma`, forcing the
Monte Carlo path. -/
def kkSig : KwargsKin := KwargsKin.mk none (some 1) none none none

/-- Witness configuration: two Monte Carlo draws, no flags set. -/
def cfgMC : LensConfig := LensConfig.mk 2 false false false none

/-- Witness configuration with a negative draw count. -/
def cfgNeg : LensConfig := LensConfig.mk (-3) false false false none

/-- Concrete collaborator set used by witnesses: identity distance
displacement, base kernel constantly the finite log-likelihood 0,
trivial anisotropy draw and identity scaling. -/
noncomputable def collabZero : Collab :=
  Collab.mk (fun a b _ _ _ => (a, b)) (fun _ _ _ _ => FVal.f 0)
    (fun _ r => (0, r)) (fun a => a)

/-- Concrete collaborator set whose base kernel always returns
negative infinity (zero likelihood). -/
noncomputable def collabNinf : Collab :=
  Collab.mk (fun a b _ _ _ => (a, b)) (fun _ _ _ _ => FVal.ninf)
    (fun _ r => (0, r)) (fun a => a)

lemma check_dist_kkSig (cfg : LensConfig) (kl : KwargsLens) :
    check_dist cfg kl kkSig = false := by
  simp [check_dist, kkSig]

/-- Witness for C1: two draws, base kernel constantly 0, so both
exponentiated values are 1, the sum is 2, and the result is
`log(2 / 2) = 0`; dividing by the draw count 1 instead would give a
different value. -/
theorem claim_C1_monte_carlo_average_witness :
    (hyper_param_likelihood cfgMC collabZero rngW 0 0 klNone kkSig).trace.length = 2 ∧
      (hyper_param_likelihood cfgMC collabZero rngW 0 0 klNone kkSig).result = FVal.f 0 := by
  have h := claim_C1_monte_carlo_average cfgMC collabZero rngW 0 0 klNone kkSig
    (hyper_param_likelihood cfgMC collabZero rngW 0 0 klNone kkSig) rfl
    (check_dist_kkSig cfgMC klNone)
  have hlogl : ∀ t ∈ (hyper_param_likelihood cfgMC collabZero rngW 0 0 klNone kkSig).trace,
      t.logl = FVal.f 0 := by
    rw [hyper_param_mc cfgMC collabZero rngW 0 0 klNone kkSig (check_dist_kkSig cfgMC klNone),
      mcPath_trace]
    exact mcLoop_trace_logl_const cfgMC collabZero klNone _ _ 0 0 (FVal.f 0)
      (fun _ _ _ _ => rfl) _ _ _
  have hsum : mcSum (hyper_param_likelihood cfgMC collabZero rngW 0 0 klNone kkSig).trace = 2 := by
    rw [mcSum_const_elem _ (FVal.f 0) hlogl, h.1, mcContrib_f_zero]
    have ht2 : cfgMC.num_distribution_draws.toNat = 2 := rfl
    rw [ht2]
    norm_num
  refine ⟨h.1, ?_⟩
  have h2 := h.2.1 (by rw [hsum]; norm_num)
  rw [h2, hsum]
  norm_num [cfgMC, Real.log_one]

/-- Witness for C4: with the base kernel constantly negative infinity
(every draw rejected by the guard), the Monte Carlo path returns
negative infinity. -/
theorem claim_C4_negative_infinity_iff_witness :
    (hyper_param_likelihood cfgMC collabNinf rngW 0 0 klNone kkSig).result = FVal.ninf := by
  have h := claim_C4_negative_infinity_iff cfgMC collabNinf rngW 0 0 klNone kkSig
    (hyper_param_likelihood cfgMC collabNinf rngW 0 0 klNone kkSig) rfl
    (check_dist_kkSig cfgMC klNone)
  apply h.2
  intro t ht
  have hl : t.logl = FVal.ninf := by
    rw [hyper_param_mc cfgMC collabNinf rngW 0 0 klNone kkSig
      (check_dist_kkSig cfgMC klNone), mcPath_trace] at ht
    exact mcLoop_trace_logl_const cfgMC collabNinf klNone _ _ 0 0 FVal.ninf
      (fun _ _ _ _ => rfl) _ _ _ t ht
  rw [hl]
  simp [FVal.exp, FVal.isFinite, FVal.pos]

/-- Witness for C9: a lens constructed with draw count -3 (accepted
without validation) returns negative infinity on the Monte Carlo
path. -/
theorem claim_C9_nonpositive_draw_count_witness :
    (hyper_param_likelihood cfgNeg collabZero rngW 0 0 klNone kkSig).result = FVal.ninf ∧
      ∃ c, lens_init (-3) false none none false = some c ∧
        c.num_distribution_draws = -3 := by
  have h := claim_C9_nonpositive_draw_count cfgNeg collabZero rngW 0 0 klNone kkSig
    (by decide) (check_dist_kkSig cfgNeg klNone)
  exact ⟨h.1, h.2 (-3) false false⟩

lemma check_dist_sv (cfg : LensConfig) (kl : KwargsLens) (kk : KwargsKin) (v : Option ℚ) :
    check_dist cfg kl { kk with sigma_v_sys_error := v } = check_dist cfg kl kk := rfl

lemma pop_pop (kk : KwargsKin) (v : Option ℚ) :
    ({ { kk with sigma_v_sys_error := v } with sigma_v_sys_error := none } : KwargsKin) =
      { kk with sigma_v_sys_error := none } := rfl

/-- Claim C8: `hyper_param_likelihood` removes the
`sigma_v_sys_error` entry from the caller-supplied kinematic keyword
set (in place; modelled by the `kin` component of the output) before
any further parameter handling, exactly once per call; the removed
value (or `none` if absent) is passed to every base-kernel invocation
of that call (the trace of kernel `sigma_v_sys_error` arguments is
constantly that value), and `sigma_v_sys_error` never participates in the
stochastic hyperparameter draws: varying it leaves every lens draw and
anisotropy draw of the call unchanged. -/
theorem claim_C8_sigma_v_sys_error_pop (cfg : LensConfig) (C : Collab) (r : Rng)
    (ddt dd : ℚ) (kl : KwargsLens) (kk : KwargsKin) :
    (hyper_param_likelihood cfg C r ddt dd kl kk).kin =
        { kk with sigma_v_sys_error := none } ∧
      ((hyper_param_likelihood cfg C r ddt dd kl kk).trace.map
          fun t => t.kernel_sigma_v) =
        List.replicate (hyper_param_likelihood cfg C r ddt dd kl kk).trace.length
          kk.sigma_v_sys_error ∧
      ∀ v : Option ℚ,
        ((hyper_param_likelihood cfg C r ddt dd kl
            { kk with sigma_v_sys_error := v }).trace.map
          fun t => (t.lens_draw, t.aniso_draw)) =
          ((hyper_param_likelihood cfg C r ddt dd kl kk).trace.map
            fun t => (t.lens_draw, t.aniso_draw)) := by
  cases hcd : check_dist cfg kl kk with
  | true =>
    rw [hyper_param_sharp cfg C r ddt dd kl kk hcd]
    refine ⟨rfl, rfl, ?_⟩
    intro v
    rw [hyper_param_sharp cfg C r ddt dd kl { kk with sigma_v_sys_error := v }
      (by rw [check_dist_sv]; exact hcd)]
    rfl
  | false =>
    rw [hyper_param_mc cfg C r ddt dd kl kk hcd]
    refine ⟨mcPath_kin cfg C r ddt dd kl _ _, ?_, ?_⟩
    · refine List.eq_replicate_iff.mpr ⟨by simp, ?_⟩
      intro x hx
      rcases List.mem_map.mp hx with ⟨t, ht, hxt⟩
      rw [← hxt]
      rw [mcPath_trace] at ht
      exact mcLoop_trace_sv cfg C kl _ _ ddt dd _ _ _ t ht
    · intro v
      rw [hyper_param_mc cfg C r ddt dd kl { kk with sigma_v_sys_error := v }
        (by rw [check_dist_sv]; exact hcd)]
      rw [mcPath_trace, mcPath_trace, pop_pop]
      exact mcLoop_trace_draws cfg C kl _ _ _ ddt dd _ _ _ _

lemma mcContrib_fin (x : ℝ) : mcContrib (FVal.f x) = Real.exp x := by
  simp [mcContrib, FVal.exp, mcAccumulate_fin, Real.exp_pos]

lemma mcContrib_ninf : mcContrib FVal.ninf = 0 := by
  simp [mcContrib, FVal.exp, mcAccumulate_fin]

lemma mcSum_singleton (t : IterTrace) : mcSum [t] = mcContrib t.logl := by
  simp [mcSum]

/-- Witness configuration for the sharp path: no sigmas, no flags, no
convergence PDF, draw count 50. -/
def cfgSharp : LensConfig := LensConfig.mk 50 false false false none

/-- Concrete collaborator set whose base kernel always returns plus
infinity. -/
noncomputable def collabPinf : Collab :=
  Collab.mk (fun a b _ _ _ => (a, b)) (fun _ _ _ _ => FVal.pinf)
    (fun _ r => (0, r)) (fun a => a)

/-- Counterexample to claim C3 as stated: at a sharp hyperparameter
set whose base kernel returns plus infinity, the sharp path of
`hyper_param_likelihood` returns plus infinity, while the Monte Carlo
path with draw count 1 at the same inputs returns minus infinity (the
draw is rejected by the finite-and-positive guard applied to
`exp(+inf) = +inf`), so the two paths are not bit-identical for every
base-kernel log-likelihood value. -/
theorem claim_C3_counterexample :
    (hyper_param_likelihood cfgSharp collabPinf rngW 0 0 klNone kkNone).result =
        FVal.pinf ∧
      (mcPath (LensConfig.mk 1 false false false none) collabPinf rngW 0 0 klNone
          kkNone none).result = FVal.ninf ∧
      FVal.pinf ≠ FVal.ninf := by
  have hcd : check_dist cfgSharp klNone kkNone = true := by
    simp [check_dist, klNone, kkNone, cfgSharp]
  refine ⟨?_, ?_, fun h => FVal.noConfusion h⟩
  · rw [hyper_param_sharp cfgSharp collabPinf rngW 0 0 klNone kkNone hcd]
    rfl
  · have hz : mcSum (mcPath (LensConfig.mk 1 false false false none) collabPinf rngW
        0 0 klNone kkNone none).trace = 0 := by
      apply mcSum_eq_zero
      intro t ht
      rw [mcPath_trace] at ht
      have hl := mcLoop_trace_logl_const (LensConfig.mk 1 false false false none)
        collabPinf klNone kkNone none 0 0 FVal.pinf (fun _ _ _ _ => rfl) _ _ _ t ht
      rw [hl]
      apply mcContrib_eq_zero
      simp [FVal.exp, FVal.isFinite]
    rw [mcPath_result, hz, if_pos (le_refl (0 : ℝ))]

/-- Claim C3 (amended): when all sigma fields are zero and no
convergence PDF is configured, and the base likelihood kernel never
returns plus infinity or NaN (equivalently, its exponential is always
finite — the correction a kernel value of `+inf` or NaN forces, since
the Monte Carlo guard rejects such a value and yields `-inf` while the
sharp path returns it unchanged), the sharp path of
`hyper_param_likelihood` produces results identical to the Monte
Carlo path evaluated with draw count 1 at the same inputs and random
source state: for every finite base-kernel log-likelihood value `x`
the Monte Carlo path returns `log(exp(x) / 1) = x`, and a kernel value
of minus infinity is rejected by the guard and returned as `log(0) =
-inf`, again equal to the sharp value. -/
theorem claim_C3_sharp_equals_mc_one (cfg : LensConfig) (C : Collab) (r : Rng)
    (ddt dd : ℚ) (kl : KwargsLens) (kk : KwargsKin)
    (hker : ∀ a b c d, C.log_likelihood a b c d ≠ FVal.pinf ∧
      C.log_likelihood a b c d ≠ FVal.nan)
    (hsig : kl.lambda_mst_sigma.getD 0 = 0 ∧ kl.kappa_ext_sigma.getD 0 = 0 ∧
      kk.a_ani_sigma.getD 0 = 0 ∧ kk.beta_inf_sigma.getD 0 = 0 ∧
      cfg.draw_kappa = false) :
    (hyper_param_likelihood cfg C r ddt dd kl kk).result =
      (mcPath { cfg with num_distribution_draws := 1 } C r ddt dd kl
        { kk with sigma_v_sys_error := none } kk.sigma_v_sys_error).result := by
  have hcd : check_dist cfg kl kk = true := (check_dist_iff cfg kl kk).mpr hsig
  rw [hyper_param_sharp cfg C r ddt dd kl kk hcd]
  have htr : (mcPath { cfg with num_distribution_draws := 1 } C r ddt dd kl
      { kk with sigma_v_sys_error := none } kk.sigma_v_sys_error).trace =
      [(iterStep { cfg with num_distribution_draws := 1 } C kl
        { kk with sigma_v_sys_error := none } kk.sigma_v_sys_error ddt dd r).1] := by
    rw [mcPath_trace]
    have h1 : ({ cfg with num_distribution_draws := 1 } :
        LensConfig).num_distribution_draws.toNat = 0 + 1 := rfl
    rw [h1, mcLoop_succ, mcLoop_zero]
  have hsharp : (sharpPath cfg C r ddt dd kl { kk with sigma_v_sys_error := none }
      kk.sigma_v_sys_error).result =
      (iterStep { cfg with num_distribution_draws := 1 } C kl
        { kk with sigma_v_sys_error := none } kk.sigma_v_sys_error ddt dd r).1.logl := rfl
  rw [mcPath_result, htr, mcSum_singleton, hsharp]
  cases hL : (iterStep { cfg with num_distribution_draws := 1 } C kl
      { kk with sigma_v_sys_error := none } kk.sigma_v_sys_error ddt dd r).1.logl with
  | f x =>
    rw [mcContrib_fin]
    rw [if_neg (not_le.mpr (Real.exp_pos x))]
    have hone : (({ cfg with num_distribution_draws := 1 } :
        LensConfig).num_distribution_draws : ℝ) = 1 := by norm_num
    rw [hone, div_one, Real.log_exp]
  | pinf => exact absurd hL (hker _ _ _ _).1
  | nan => exact absurd hL (hker _ _ _ _).2
  | ninf =>
    rw [mcContrib_ninf, if_pos (le_refl (0 : ℝ))]

/-- Witness for the amended C3: with the base kernel constantly the
finite value 0 and an all-sharp hyperparameter set, the sharp path and
the Monte Carlo path at draw count 1 agree, both returning 0. -/
theorem claim_C3_sharp_equals_mc_one_witness :
    (hyper_param_likelihood cfgSharp collabZero rngW 0 0 klNone kkNone).result =
        (mcPath { cfgSharp with num_distribution_draws := 1 } collabZero rngW 0 0 klNone
          { kkNone with sigma_v_sys_error := none } kkNone.sigma_v_sys_error).result ∧
      (hyper_param_likelihood cfgSharp collabZero rngW 0 0 klNone kkNone).result =
        FVal.f 0 := by
  have h := claim_C3_sharp_equals_mc_one cfgSharp collabZero rngW 0 0 klNone kkNone
    (fun _ _ _ _ => ⟨fun hp => FVal.noConfusion hp, fun hn => FVal.noConfusion hn⟩)
    ⟨rfl, rfl, rfl, rfl, rfl⟩
  refine ⟨h, ?_⟩
  have hcd : check_dist cfgSharp klNone kkNone = true := by
    simp [check_dist, klNone, kkNone, cfgSharp]
  rw [hyper_param_sharp cfgSharp collabZero rngW 0 0 klNone kkNone hcd]
  rfl

/-- Claim C10: if exactly one of `kappa_pdf` and `kappa_bin_edges` is
supplied at construction (the other left as `None`), no
convergence-PDF sampler is created and no error is raised: the lens is
silently configured with PDF sampling disabled (`_draw_kappa` false,
no `_kappa_dist`), so convergence draws fall back to the
`kappa_ext_bias` normal draw or the deterministic zero. -/
theorem claim_C10_partial_kappa_config (n : ℤ) (kb mi : Bool)
    (kappa_pdf kappa_bin_edges : Option (List ℚ))
    (h : kappa_pdf.isSome ≠ kappa_bin_edges.isSome) :
    ∃ c, lens_init n kb kappa_pdf kappa_bin_edges mi = some c ∧
      c.draw_kappa = false ∧ c.kappa_dist = none ∧
      ∀ (kl : KwargsLens) (r : Rng),
        (draw_lens c kl r).1.kappa_ext_draw =
          if kb = true then
            normal (kl.kappa_ext.getD 0) (kl.kappa_ext_sigma.getD 0)
              (r.normals (r.nIdx + 1))
          else 0 := by
  cases kappa_pdf with
  | none =>
    cases kappa_bin_edges with
    | none => simp at h
    | some es =>
      refine ⟨LensConfig.mk n kb mi false none, rfl, rfl, rfl, ?_⟩
      intro kl r
      rw [draw_lens_kappa]
      simp
  | some ps =>
    cases kappa_bin_edges with
    | some es => simp at h
    | none =>
      refine ⟨LensConfig.mk n kb mi false none, rfl, rfl, rfl, ?_⟩
      intro kl r
      rw [draw_lens_kappa]
      simp

/-- Witness for C10: supplying only `kappa_pdf` yields a lens with PDF
sampling disabled, no sampler, no error, and a zero convergence draw
under disabled `kappa_ext_bias`. -/
theorem claim_C10_partial_kappa_config_witness :
    ∃ c, lens_init 5 false (some [1]) none false = some c ∧
      c.draw_kappa = false ∧ c.kappa_dist = none ∧
      (draw_lens c klNone rngW).1.kappa_ext_draw = 0 := by
  obtain ⟨c, hc, h1, h2, h3⟩ :=
    claim_C10_partial_kappa_config 5 false false (some [1]) none (by decide)
  refine ⟨c, hc, h1, h2, ?_⟩
  rw [h3 klNone rngW]
  simp
